import Mathlib

/-!
Shallow embedding of the ClickHouse ETL processing core
(`core/src/clickhouse-processor.ts`): schema inspection, startup
reconciliation, the processing loop's flush / error-handling control flow,
metrics registration, and the block-writer commit barrier.
-/

/-- One row of the `system.columns` listing: `{table, name, type}`,
as queried by `inspectDatabase`. -/
structure Column where
  table : String
  name : String
  type : String
deriving DecidableEq

/-- Modelled from the spec: `groupBy` (`util/misc`) is not under `src/`;
spec step "Group by `table`" — groups the column rows by table name,
preserving first-occurrence key order and per-group row order
(the semantics of inserting into a JS `Map` while iterating). -/
def addCol (acc : List (String × List Column)) (c : Column) : List (String × List Column) :=
  match acc with
  | [] => [(c.table, [c])]
  | (k, vs) :: rest =>
      if k == c.table then (k, vs ++ [c]) :: rest
      else (k, vs) :: addCol rest c

/-- Group a column listing by table, in first-occurrence order. -/
def groupByTable (cols : List Column) : List (String × List Column) :=
  cols.foldl addCol []

/-- `BlockNumber` type predicate from `inspectDatabase`:
only `UInt32` and `UInt64` are allowed. -/
def blockNumberType (t : String) : Bool :=
  t == "UInt32" || t == "UInt64"

/-- `Hash` type predicate from `inspectDatabase`:
`String` or any `FixedString(N)`. -/
def hashType (t : String) : Bool :=
  t == "String" || t.startsWith "FixedString"

/-- `DateTime` type predicate from `inspectDatabase`: exactly `DateTime`. -/
def dateTimeType (t : String) : Bool :=
  t == "DateTime"

def blockNumberDesc : String := "only UInt32 and UInt64 types are allowed"

def hashDesc : String := "only String or FixedString(N) types are allowed"

def dateTimeDesc : String := "only DateTime type is allowed"

/-- `assertColumn` from `inspectDatabase`: looks the column up by name;
a missing required column or a present column with a non-matching type
is an error. -/
def assertColumn (db table : String) (fields : List Column) (name : String)
    (typeMatch : String → Bool) (typeDesc : String) (optional : Bool) :
    Except String Unit :=
  match fields.find? (fun f => f.name == name) with
  | none =>
      if optional then Except.ok ()
      else Except.error
        ("table \x27" ++ db ++ "." ++ table ++ "\x27 does not have column \x27" ++ name ++ "\x27")
  | some c =>
      if typeMatch c.type then Except.ok ()
      else Except.error
        ("column \x27" ++ name ++ "\x27 of table \x27" ++ db ++ "." ++ table ++
          "\x27 has unsupported type " ++ c.type ++ ", " ++ typeDesc)

/-- The per-table branch of `inspectDatabase`'s validation loop:
`blocks` requires `number`, `hash`, `parent_hash` (with optional
`parent_number`, `timestamp`); every other table requires `block_number`
and `block_hash` (with optional `block_timestamp`). -/
def checkTable (db table : String) (fields : List Column) : Except String Unit :=
  if table == "blocks" then do
    assertColumn db table fields "number" blockNumberType blockNumberDesc false
    assertColumn db table fields "hash" hashType hashDesc false
    assertColumn db table fields "parent_number" blockNumberType blockNumberDesc true
    assertColumn db table fields "parent_hash" hashType hashDesc false
    assertColumn db table fields "timestamp" dateTimeType dateTimeDesc true
  else do
    assertColumn db table fields "block_number" blockNumberType blockNumberDesc false
    assertColumn db table fields "block_hash" hashType hashDesc false
    assertColumn db table fields "block_timestamp" dateTimeType dateTimeDesc true

/-- The `for [table, fields] of columns.entries()` validation loop:
stops at the first failing table. -/
def checkAll (db : String) : List (String × List Column) → Except String Unit
  | [] => Except.ok ()
  | (t, fs) :: rest => do
      checkTable db t fs
      checkAll db rest

/-- `inspectDatabase`: group the column listing by table, validate every
table, then require that a `blocks` table exists, and return the item
tables (every table except `blocks`). The existence check runs after the
validation loop, exactly as in the source. -/
def inspectDatabase (db : String) (cols : List Column) : Except String (List String) := do
  let columns := groupByTable cols
  checkAll db columns
  if columns.any (fun kv => kv.1 == "blocks") then
    Except.ok (((columns.map Prod.fst).filter (fun t => t != "blocks")))
  else
    Except.error ("\x27blocks\x27 table is not defined in database \x27" ++ db ++ "\x27")

/-- `BlockRef`: `{number, hash}`. -/
structure BlockRef where
  number : Nat
  hash : String
deriving DecidableEq

/-- `clearPartialData`: one `DELETE` command per table of `tableList`;
with a head, `block_number > head.number`, otherwise `block_number >= 0`.
Returns the issued SQL commands in order. -/
def clearPartialData (database : String) (tableList : List String)
    (head : Option BlockRef) : List String :=
  match head with
  | some h =>
      tableList.map (fun table =>
        "DELETE FROM " ++ database ++ "." ++ table ++ " WHERE block_number > " ++ toString h.number)
  | none =>
      tableList.map (fun table =>
        "DELETE FROM " ++ database ++ "." ++ table ++ " WHERE block_number >= 0")

/-- `BlockBase`'s header: `{number, hash, parent_hash, ...}`. -/
structure Header where
  number : Nat
  hash : String
  parent_hash : String
deriving DecidableEq

/-- `BlockBase`: a block with a header (domain-specific fields are
irrelevant to the core). -/
structure Block where
  header : Header
deriving DecidableEq

/-- `DataBatch<B>`: `{blocks: B[], headNumber?: number}`. -/
structure DataBatch where
  blocks : List Block
  headNumber : Option Nat
deriving DecidableEq

/-- The loop's head-signal condition:
`batch.blocks.length == 0 || (batch.headNumber ?? -1) <= last(batch.blocks).header.number`.
The `||` short-circuits, so `last` is only evaluated on a non-empty batch;
`headNumber ?? -1` is modelled as `Int` with `-1` for an absent head. -/
def shouldFlush (batch : DataBatch) : Bool :=
  match batch.blocks.getLast? with
  | none => true
  | some b =>
      decide (((batch.headNumber.map (fun n => (n : Int))).getD (-1)) ≤ (b.header.number : Int))

/-- A serialized mapping-output row (a black box to the core). -/
abbrev Row := String

/-- `PerBlockOutput`: the mapping function's result, a finite map from
table name to the rows to insert (`R extends {[P in keyof R]: object[]}`),
modelled as an association list in key order. -/
abbrev PerBlockOutput := List (String × List Row)

/-- The inner accumulation of `nRows` over one batch:
per block, `nRows += 1`, then `nRows += tables[table].length`
for each table of the mapping output. -/
def batchRowCount (map : Block → PerBlockOutput) (blocks : List Block) : Nat :=
  blocks.foldl
    (fun acc b => (map b).foldl (fun a kv => a + kv.2.length) (acc + 1))
    0

/-- Observable events of one iteration of the batch loop. -/
inductive Ev where
  | mapEv (n : Nat)
  | drainEv
  | pushEv (n : Nat) (tables : PerBlockOutput)
  | flushEv
  | metricsEv (rows : Nat)
deriving DecidableEq

/-- Per-block body of the loop: `tables := await map(block)`, then
`await writer.drain()`, then `writer.push({header, tables})`. -/
def processBlockTrace (map : Block → PerBlockOutput) (b : Block) : List Ev :=
  [Ev.mapEv b.header.number, Ev.drainEv, Ev.pushEv b.header.number (map b)]

/-- The event trace of one batch iteration: the per-block bodies in source
order, then `writer.flush()` when the head-signal condition holds, then
`metrics.registerBatch(batch, nRows)`. -/
def batchTrace (map : Block → PerBlockOutput) (batch : DataBatch) : List Ev :=
  (batch.blocks.map (processBlockTrace map)).flatten ++
    (if shouldFlush batch then [Ev.flushEv] else []) ++
    [Ev.metricsEv (batchRowCount map batch.blocks)]

/-- Extract a push event's payload. -/
def pushPayload : Ev → Option (Nat × PerBlockOutput)
  | Ev.pushEv n t => some (n, t)
  | _ => none

/-- Extract a metrics event's row count. -/
def metricsRows : Ev → Option Nat
  | Ev.metricsEv r => some r
  | _ => none

/-- Observable actions of the loop's `catch` clause. -/
inductive ErrAction where
  | flushCall
  | logError (msg : String)
  | raise (e : String)
deriving DecidableEq

/-- The loop's `catch` clause: when `writer.isHealthy`, one
`writer.flush()` whose rejection is only logged; then the original error
is re-thrown. `flushOutcome` is how that single flush attempt would
resolve. -/
def handleLoopError (isHealthy : Bool) (flushOutcome : Except String Unit)
    (err : String) : List ErrAction :=
  (if isHealthy then
    ErrAction.flushCall ::
      (match flushOutcome with
       | Except.ok _ => []
       | Except.error _ => [ErrAction.logError "final flush of already mapped data failed"])
   else []) ++ [ErrAction.raise err]

def isFlushCall : ErrAction → Bool
  | ErrAction.flushCall => true
  | _ => false

def isRaise : ErrAction → Bool
  | ErrAction.raise _ => true
  | _ => false

def isLogError : ErrAction → Bool
  | ErrAction.logError _ => true
  | _ => false

/-- A rolling-speed counter (`@subsquid/util-internal-counters`, an
external dependency): modelled as the sequence of samples it has been fed,
each `push(count, beg, end)` recording one sample. -/
structure Speed where
  samples : List (Nat × Nat × Nat)
deriving DecidableEq

def Speed.push (s : Speed) (count beg fin : Nat) : Speed :=
  ⟨s.samples ++ [(count, beg, fin)]⟩

/-- Modelled from the spec: `Timer` (`util/timer`) is not under `src/`;
per §4.6 it triggers a report when no batch arrived for the configured
delay — modelled as whether it is armed and with what delay. -/
structure TimerState where
  armed : Bool
  delay : Nat
deriving DecidableEq

def TimerState.start (t : TimerState) (delay : Nat) : TimerState :=
  { t with armed := true, delay := delay }

def TimerState.stop (t : TimerState) : TimerState :=
  { t with armed := false }

/-- The mutable fields of the `Metrics` class. `lastReportTime` starts at
`Number.NEGATIVE_INFINITY`, modelled as `none`. -/
structure MetricsState where
  lastBlock : Int
  lastTick : Nat
  lastReportTime : Option Int
  blockSpeed : Speed
  insertSpeed : Speed
  reportTimeout : TimerState
deriving DecidableEq

/-- A status-line emission (`log.info(this.getStatusLine())`), recorded
with the state it reports. -/
structure StatusLine where
  lastBlock : Int
  blockSpeed : Speed
  insertSpeed : Speed
deriving DecidableEq

/-- `Metrics.report()`: emit the status line, stamp `lastReportTime`,
stop the timer. `nowWall` is `Date.now()`. -/
def metricsReport (st : MetricsState) (nowWall : Int) : MetricsState × List StatusLine :=
  ({ st with lastReportTime := some nowWall, reportTimeout := st.reportTimeout.stop },
   [⟨st.lastBlock, st.blockSpeed, st.insertSpeed⟩])

/-- `Metrics.reportUpdates()`: report at most once per 5000 ms of wall
time, else arm the timer for the remaining delay. -/
def reportUpdates (st : MetricsState) (nowWall : Int) : MetricsState × List StatusLine :=
  match st.lastReportTime with
  | none => metricsReport st nowWall
  | some t =>
      let delay := 5000 - (nowWall - t)
      if 0 < delay then
        ({ st with reportTimeout := st.reportTimeout.start delay.toNat }, [])
      else metricsReport st nowWall

/-- `Metrics.registerBatch(batch, rows)`: returns on an empty batch;
otherwise feeds both speed counters, advances `lastBlock` / `lastTick`
and invokes `reportUpdates`. `now` is `process.hrtime.bigint()`,
`nowWall` is `Date.now()`. -/
def registerBatch (st : MetricsState) (batch : DataBatch) (rows : Nat)
    (now : Nat) (nowWall : Int) : MetricsState × List StatusLine :=
  if batch.blocks.length == 0 then (st, [])
  else
    let lastBlock : Int :=
      ((batch.blocks.getLast?.map (fun b => (b.header.number : Int))).getD 0)
    let st1 :=
      if st.lastBlock < 0 then
        { st with lastBlock :=
            ((batch.blocks.head?.map (fun b => (b.header.number : Int))).getD 0) - 1 }
      else st
    let st2 :=
      { st1 with
        blockSpeed := st1.blockSpeed.push (max 0 (lastBlock - st1.lastBlock)).toNat st1.lastTick now
        insertSpeed := st1.insertSpeed.push rows st1.lastTick now }
    let st3 := { st2 with lastBlock := lastBlock, lastTick := now }
    reportUpdates st3 nowWall

/-- A `blocks`-table row buffered in the writer, keyed by its number. -/
structure BlocksRow where
  number : Nat
  hash : String
  parent_hash : String
deriving DecidableEq

/-- Modelled from the spec: the `BlockWriter`
(`core/src/clickhouse/writer.ts`) is not under `src/`, only imported.
Its blocks-table publication state per §4.4: one "durable up to block"
watermark per item table, and the buffered `blocks` rows awaiting the
commit barrier. -/
structure WriterState where
  durable : List (String × Nat)
  blocksBuffer : List BlocksRow
deriving DecidableEq

/-- Modelled from the spec: `min(durable_block_per_item_table)` —
`none` when there are no item tables. -/
def minDurable (durable : List (String × Nat)) : Option Nat :=
  (durable.map Prod.snd).min?

/-- Modelled from the spec: the check before each `blocks` flush —
"include only those buffered `blocks` rows whose number is
≤ `min(durable_block_per_item_table)`". -/
def flushBlocksSelection (st : WriterState) : List BlocksRow :=
  st.blocksBuffer.filter (fun r =>
    match minDurable st.durable with
    | none => true
    | some m => decide (r.number ≤ m))

/-- The reconciliation predicate of the issued `DELETE` statements:
`block_number > head.number` with a head, `block_number >= 0` without. -/
def headPred : Option BlockRef → String
  | some h => "block_number > " ++ toString h.number
  | none => "block_number >= 0"

/-- Whether a flush attempt rejected. -/
def flushFailed : Except String Unit → Bool
  | Except.ok _ => false
  | Except.error _ => true


lemma foldl_add_rows (tables : PerBlockOutput) (a : Nat) :
    tables.foldl (fun x kv => x + kv.2.length) a =
      a + (tables.map (fun kv => kv.2.length)).sum := by
  induction tables generalizing a with
  | nil => simp
  | cons kv rest ih =>
      simp only [List.foldl_cons, List.map_cons, List.sum_cons, ih]
      omega

lemma batchRowCount_eq (map : Block → PerBlockOutput) (blocks : List Block) :
    batchRowCount map blocks =
      blocks.length +
        (blocks.map (fun b => ((map b).map (fun kv => kv.2.length)).sum)).sum := by
  suffices h : ∀ a : Nat,
      blocks.foldl (fun acc b => (map b).foldl (fun x kv => x + kv.2.length) (acc + 1)) a =
        a + blocks.length +
          (blocks.map (fun b => ((map b).map (fun kv => kv.2.length)).sum)).sum by
    simpa [batchRowCount] using h 0
  induction blocks with
  | nil => intro a; simp
  | cons b rest ih =>
      intro a
      rw [List.foldl_cons, foldl_add_rows, ih]
      simp only [List.map_cons, List.sum_cons, List.length_cons]
      omega

lemma where_gt_eq (x : String) (n : Nat) :
    x ++ " WHERE block_number > " ++ toString n =
      x ++ " WHERE " ++ ("block_number > " ++ toString n) := by
  have h : (" WHERE " : String) ++ "block_number > " = " WHERE block_number > " := by decide
  rw [String.append_assoc x, String.append_assoc x, ← String.append_assoc " WHERE ", h]

lemma where_ge_eq (x : String) :
    x ++ " WHERE block_number >= 0" = x ++ " WHERE " ++ "block_number >= 0" := by
  have h : (" WHERE " : String) ++ "block_number >= 0" = " WHERE block_number >= 0" := by decide
  rw [String.append_assoc x, h]

lemma filterMap_metrics_flatten (map : Block → PerBlockOutput) (blocks : List Block) :
    ((blocks.map (processBlockTrace map)).flatten).filterMap metricsRows = [] := by
  induction blocks with
  | nil => simp
  | cons b rest ih => simp [processBlockTrace, metricsRows, ih]

lemma filterMap_push_flatten (map : Block → PerBlockOutput) (blocks : List Block) :
    ((blocks.map (processBlockTrace map)).flatten).filterMap pushPayload =
      blocks.map (fun b => (b.header.number, map b)) := by
  induction blocks with
  | nil => simp
  | cons b rest ih => simp [processBlockTrace, pushPayload, ih]

lemma except_bind_ok_inv {α β : Type} {x : Except String α} {f : α → Except String β} {b : β}
    (h : x >>= f = Except.ok b) : ∃ a, x = Except.ok a ∧ f a = Except.ok b := by
  cases x with
  | ok a => exact ⟨a, rfl, h⟩
  | error e => exact Except.noConfusion h

/-- C9: calling `Metrics.registerBatch` with a batch whose blocks list is
empty returns immediately and leaves the entire metrics state unchanged —
`lastBlock`, `lastTick`, both rolling speeds and the report timer — and no
status line is emitted. -/
theorem registerBatch_empty_batch_frame (st : MetricsState) (hn : Option Nat)
    (rows now : Nat) (nowWall : Int) :
    registerBatch st { blocks := [], headNumber := hn } rows now nowWall = (st, []) := rfl

/-- C10: the rows count handed to the metrics for a batch equals the
number of blocks in the batch plus, over all blocks, the total number of
rows in every table of the block's mapping output — each block contributes
one extra counted row (its `blocks`-table row) on top of its mapped rows. -/
theorem metrics_rows_count (map : Block → PerBlockOutput) (batch : DataBatch) :
    (batchTrace map batch).filterMap metricsRows =
      [batch.blocks.length +
        (batch.blocks.map (fun b => ((map b).map (fun kv => kv.2.length)).sum)).sum] := by
  unfold batchTrace
  rw [List.filterMap_append, List.filterMap_append, filterMap_metrics_flatten,
    batchRowCount_eq]
  cases shouldFlush batch <;> simp [metricsRows]

/-- C4: on an error thrown from the processing loop, exactly one
best-effort `writer.flush()` is attempted precisely when `writer.isHealthy`
holds; a failing flush is only logged and never thrown, and the single
re-raised error is the original one. -/
theorem loop_error_propagation (isHealthy : Bool) (flushOutcome : Except String Unit)
    (err : String) :
    ((handleLoopError isHealthy flushOutcome err).filter isFlushCall).length =
        (if isHealthy then 1 else 0) ∧
    (handleLoopError isHealthy flushOutcome err).filter isRaise = [ErrAction.raise err] ∧
    ((handleLoopError isHealthy flushOutcome err).filter isLogError).length =
        (if isHealthy && flushFailed flushOutcome then 1 else 0) := by
  cases isHealthy <;> cases flushOutcome <;>
    simp [handleLoopError, isFlushCall, isRaise, isLogError, flushFailed]

/-- C2: reconciliation issues, for each item table, exactly one `DELETE`
whose predicate is `block_number > head.number` when a head is present and
`block_number >= 0` when no head exists; the item-table list produced by
inspection never contains `blocks`, so the `blocks` table is never
touched. -/
theorem reconcile_commands (db : String) (cols : List Column) (tables : List String)
    (hins : inspectDatabase db cols = Except.ok tables) (head : Option BlockRef) :
    clearPartialData db tables head =
      tables.map (fun table =>
        "DELETE FROM " ++ db ++ "." ++ table ++ " WHERE " ++ headPred head) ∧
    "blocks" ∉ tables := by
  constructor
  · cases head with
    | some h =>
        simp only [clearPartialData, headPred]
        congr 1
        funext table
        exact where_gt_eq _ _
    | none =>
        simp only [clearPartialData, headPred]
        congr 1
        funext table
        exact where_ge_eq _
  · simp only [inspectDatabase] at hins
    obtain ⟨u, hca, hif⟩ := except_bind_ok_inv hins
    by_cases hany : (groupByTable cols).any (fun kv => kv.1 == "blocks") = true
    · rw [if_pos hany] at hif
      obtain rfl : tables = ((groupByTable cols).map Prod.fst).filter (fun t => t != "blocks") :=
        (Except.ok.injEq _ _).mp hif.symm
      intro hmem
      have := (List.mem_filter.mp hmem).2
      simp at this
    · rw [if_neg hany] at hif
      exact Except.noConfusion hif

/-- Witness for `reconcile_commands` at a concrete listing and head. -/
theorem reconcile_commands_witness :
    clearPartialData "db" ["liquidity"] (some ⟨100, "h"⟩) =
      ["liquidity"].map (fun table =>
        "DELETE FROM " ++ "db" ++ "." ++ table ++ " WHERE " ++ headPred (some ⟨100, "h"⟩)) ∧
    "blocks" ∉ ["liquidity"] :=
  reconcile_commands "db"
    [⟨"blocks", "number", "UInt64"⟩, ⟨"blocks", "hash", "String"⟩,
     ⟨"blocks", "parent_hash", "String"⟩,
     ⟨"liquidity", "block_number", "UInt64"⟩, ⟨"liquidity", "block_hash", "String"⟩]
    ["liquidity"] (by rfl) (some ⟨100, "h"⟩)

/-- C3 counterexample: an empty batch whose `headNumber` (10) exceeds the
last previously processed block's number (3) still satisfies the loop's
flush condition — `batch.blocks.length == 0` short-circuits the `||`, so
every empty batch awaits `writer.flush()` regardless of `headNumber`. -/
theorem empty_batch_always_flushes :
    shouldFlush { blocks := [], headNumber := some 10 } = true ∧
    Ev.flushEv ∈ batchTrace (fun _ => []) { blocks := [], headNumber := some 10 } ∧
    (3 : Nat) < 10 :=
  ⟨rfl, by decide, by decide⟩

/-- C3 amended: the loop awaits `writer.flush()` for every empty batch
(regardless of `headNumber`), and for a non-empty batch exactly when
`headNumber` is unset or less-than-or-equal-to the last block of that
batch. -/
theorem head_signal_flush_iff (batch : DataBatch) :
    shouldFlush batch = true ↔
      batch.blocks = [] ∨
      ∃ b, batch.blocks.getLast? = some b ∧
        (batch.headNumber = none ∨
          ∃ h, batch.headNumber = some h ∧ h ≤ b.header.number) := by
  unfold shouldFlush
  cases hl : batch.blocks.getLast? with
  | none =>
      simp only [List.getLast?_eq_none_iff] at hl
      simp [hl]
  | some b =>
      have hne : batch.blocks ≠ [] := by
        intro h
        rw [h] at hl
        exact Option.noConfusion hl
      cases hn : batch.headNumber with
      | none =>
          change decide ((-1 : Int) ≤ (b.header.number : Int)) = true ↔ _
          rw [decide_eq_true_eq]
          constructor
          · intro _
            exact Or.inr ⟨b, rfl, Or.inl rfl⟩
          · intro _
            omega
      | some h =>
          change decide ((h : Int) ≤ (b.header.number : Int)) = true ↔ _
          rw [decide_eq_true_eq]
          constructor
          · intro hle
            refine Or.inr ⟨b, rfl, Or.inr ⟨h, rfl, ?_⟩⟩
            exact_mod_cast hle
          · intro hright
            rcases hright with hnil | ⟨b', hb', hright⟩
            · exact absurd hnil hne
            · obtain rfl : b = b' := Option.some.inj hb'
              rcases hright with hcontra | ⟨h', hh', hle⟩
              · exact Option.noConfusion hcontra
              · obtain rfl : h = h' := Option.some.inj hh'
                exact_mod_cast hle

/-- C6: evaluation at the failing input — an item table with a valid
`block_number` column but no `block_hash` column is rejected by the
schema inspection, although the source's own doc comment marks
`block_hash` as "this field is optional". -/
theorem item_table_missing_block_hash :
    checkTable "db" "liquidity" [⟨"liquidity", "block_number", "UInt64"⟩] =
      Except.error "table \x27db.liquidity\x27 does not have column \x27block_hash\x27" := by
  rfl

lemma error_bind {α β : Type} (e : String) (f : α → Except String β) :
    (Except.error e : Except String α) >>= f = Except.error e := rfl

lemma ok_bind {α β : Type} (a : α) (f : α → Except String β) :
    (Except.ok a : Except String α) >>= f = f a := rfl

lemma bind5_ok (a b c d e : Except String Unit) :
    (do a; b; c; d; e) = Except.ok () ↔
      a = Except.ok () ∧ b = Except.ok () ∧ c = Except.ok () ∧
        d = Except.ok () ∧ e = Except.ok () := by
  cases a <;> cases b <;> cases c <;> cases d <;> cases e <;>
    simp [error_bind, ok_bind]

lemma bind3_ok (a b c : Except String Unit) :
    (do a; b; c) = Except.ok () ↔
      a = Except.ok () ∧ b = Except.ok () ∧ c = Except.ok () := by
  cases a <;> cases b <;> cases c <;> simp [error_bind, ok_bind]

lemma find_name_eq_some (fields : List Column) (n : String)
    (hnd : (fields.map Column.name).Nodup) (c : Column) (hc : c ∈ fields)
    (hn : c.name = n) :
    fields.find? (fun f => f.name == n) = some c := by
  induction fields with
  | nil => exact absurd hc (List.not_mem_nil c)
  | cons d rest ih =>
      rw [List.map_cons, List.nodup_cons] at hnd
      obtain ⟨hd, hrest⟩ := hnd
      rcases List.mem_cons.mp hc with rfl | hcr
      · exact List.find?_cons_of_pos _ (by simp [hn])
      · by_cases hdn : d.name = n
        · exact absurd (hdn ▸ (hn ▸ List.mem_map_of_mem Column.name hcr)) hd
        · rw [List.find?_cons_of_neg _ (by simp [hdn])]
          exact ih hrest hcr

lemma assertColumn_req_ok_iff (db table : String) (fields : List Column) (n : String)
    (tm : String → Bool) (td : String) (hnd : (fields.map Column.name).Nodup) :
    assertColumn db table fields n tm td false = Except.ok () ↔
      ∃ c ∈ fields, c.name = n ∧ tm c.type = true := by
  unfold assertColumn
  cases hf : fields.find? (fun f => f.name == n) with
  | none =>
      simp only [Bool.false_eq_true, if_false]
      constructor
      · intro h
        exact Except.noConfusion h
      · rintro ⟨c, hc, hcn, _⟩
        have := List.find?_eq_none.mp hf c hc
        simp [hcn] at this
  | some c =>
      have hcn : c.name = n := by simpa using List.find?_some hf
      have hcm : c ∈ fields := List.mem_of_find?_eq_some hf
      cases htm : tm c.type with
      | true =>
          simp only [htm, if_true]
          constructor
          · intro _
            exact ⟨c, hcm, hcn, htm⟩
          · intro _
            trivial
      | false =>
          simp only [htm, Bool.false_eq_true, if_false]
          constructor
          · intro h
            exact Except.noConfusion h
          · rintro ⟨c', hc', hcn', htm'⟩
            have hfind := find_name_eq_some fields n hnd c' hc' hcn'
            rw [hf] at hfind
            obtain rfl : c = c' := Option.some.inj hfind
            simp [htm] at htm'

lemma assertColumn_opt_ok_iff (db table : String) (fields : List Column) (n : String)
    (tm : String → Bool) (td : String) (hnd : (fields.map Column.name).Nodup) :
    assertColumn db table fields n tm td true = Except.ok () ↔
      ∀ c ∈ fields, c.name = n → tm c.type = true := by
  unfold assertColumn
  cases hf : fields.find? (fun f => f.name == n) with
  | none =>
      simp only [if_true]
      constructor
      · intro _ c hc hcn
        have := List.find?_eq_none.mp hf c hc
        simp [hcn] at this
      · intro _
        trivial
  | some c =>
      have hcn : c.name = n := by simpa using List.find?_some hf
      have hcm : c ∈ fields := List.mem_of_find?_eq_some hf
      cases htm : tm c.type with
      | true =>
          simp only [htm, if_true]
          constructor
          · intro _ c' hc' hcn'
            have hfind := find_name_eq_some fields n hnd c' hc' hcn'
            rw [hf] at hfind
            obtain rfl : c = c' := Option.some.inj hfind
            exact htm
          · intro _
            trivial
      | false =>
          simp only [htm, Bool.false_eq_true, if_false]
          constructor
          · intro h
            exact Except.noConfusion h
          · intro hall
            exact absurd (hall c hcm hcn) (by simp [htm])

/-- C5: for a distinct-named column listing of table `blocks`, the schema
inspection succeeds if and only if `number` (BlockNumber), `hash` (Hash)
and `parent_hash` (Hash) are present with matching types, while
`parent_number` (BlockNumber) and `timestamp` (DateTime) may be absent —
any present column of these names with a non-matching type fails. -/
theorem blocks_schema_iff (db : String) (fields : List Column)
    (hnd : (fields.map Column.name).Nodup) :
    checkTable db "blocks" fields = Except.ok () ↔
      ((∃ c ∈ fields, c.name = "number" ∧ blockNumberType c.type = true) ∧
       (∃ c ∈ fields, c.name = "hash" ∧ hashType c.type = true) ∧
       (∀ c ∈ fields, c.name = "parent_number" → blockNumberType c.type = true) ∧
       (∃ c ∈ fields, c.name = "parent_hash" ∧ hashType c.type = true) ∧
       (∀ c ∈ fields, c.name = "timestamp" → dateTimeType c.type = true)) := by
  unfold checkTable
  rw [if_pos (show (("blocks" == "blocks") = true) by rfl)]
  rw [bind5_ok,
    assertColumn_req_ok_iff db "blocks" fields "number" blockNumberType blockNumberDesc hnd,
    assertColumn_req_ok_iff db "blocks" fields "hash" hashType hashDesc hnd,
    assertColumn_opt_ok_iff db "blocks" fields "parent_number" blockNumberType blockNumberDesc hnd,
    assertColumn_req_ok_iff db "blocks" fields "parent_hash" hashType hashDesc hnd,
    assertColumn_opt_ok_iff db "blocks" fields "timestamp" dateTimeType dateTimeDesc hnd]

/-- Witness for `blocks_schema_iff` at the schema of `evm/db_tvl.sql`. -/
theorem blocks_schema_iff_witness :
    checkTable "db" "blocks"
      [⟨"blocks", "number", "UInt64"⟩, ⟨"blocks", "hash", "String"⟩,
       ⟨"blocks", "parent_hash", "String"⟩,
       ⟨"blocks", "timestamp", "DateTime"⟩] = Except.ok () :=
  (blocks_schema_iff "db"
    [⟨"blocks", "number", "UInt64"⟩, ⟨"blocks", "hash", "String"⟩,
     ⟨"blocks", "parent_hash", "String"⟩,
     ⟨"blocks", "timestamp", "DateTime"⟩] (by decide)).mpr (by decide)

/-- C7 counterexample: a database listing with no `blocks` table whose
only table fails column validation makes `inspectDatabase` fail with the
column-validation error, not with the `blocks`-not-defined error — the
existence check runs after the per-table validation, not before it. -/
theorem missing_blocks_error_counterexample :
    (∀ c ∈ [(⟨"t", "x", "UInt32"⟩ : Column)], c.table ≠ "blocks") ∧
    inspectDatabase "db" [⟨"t", "x", "UInt32"⟩] =
      Except.error "table \x27db.t\x27 does not have column \x27block_number\x27" ∧
    ("table \x27db.t\x27 does not have column \x27block_number\x27" : String) ≠
      "\x27blocks\x27 table is not defined in database \x27db\x27" :=
  ⟨by decide, by rfl, by decide⟩

lemma addCol_keys (acc : List (String × List Column)) (c : Column) (k : String)
    (h : k ∈ (addCol acc c).map Prod.fst) : k = c.table ∨ k ∈ acc.map Prod.fst := by
  induction acc with
  | nil =>
      simp [addCol] at h
      exact Or.inl h
  | cons kv rest ih =>
      obtain ⟨k0, vs⟩ := kv
      rw [addCol] at h
      by_cases hk : (k0 == c.table) = true
      · rw [if_pos hk] at h
        simp only [List.map_cons, List.mem_cons] at h
        rcases h with rfl | hmem
        · exact Or.inr (by simp)
        · exact Or.inr (by simp [hmem])
      · rw [if_neg hk] at h
        simp only [List.map_cons, List.mem_cons] at h
        rcases h with rfl | hmem
        · exact Or.inr (by simp)
        · rcases ih hmem with heq | hmem2
          · exact Or.inl heq
          · exact Or.inr (by simp only [List.map_cons, List.mem_cons]; exact Or.inr hmem2)

lemma foldl_addCol_keys (cols : List Column) :
    ∀ (acc : List (String × List Column)) (k : String),
      k ∈ (cols.foldl addCol acc).map Prod.fst →
        k ∈ acc.map Prod.fst ∨ ∃ c ∈ cols, c.table = k := by
  induction cols with
  | nil =>
      intro acc k h
      exact Or.inl h
  | cons c rest ih =>
      intro acc k h
      rw [List.foldl_cons] at h
      rcases ih (addCol acc c) k h with hacc | ⟨c', hc', hck⟩
      · rcases addCol_keys acc c k hacc with heq | hmem
        · exact Or.inr ⟨c, List.mem_cons_self c rest, heq.symm⟩
        · exact Or.inl hmem
      · exact Or.inr ⟨c', List.mem_cons_of_mem c hc', hck⟩

lemma no_blocks_key (cols : List Column) (h : ∀ c ∈ cols, c.table ≠ "blocks") :
    (groupByTable cols).any (fun kv => kv.1 == "blocks") = false := by
  by_contra hany
  have hany2 : (groupByTable cols).any (fun kv => kv.1 == "blocks") = true := by
    revert hany
    cases (groupByTable cols).any (fun kv => kv.1 == "blocks") <;> simp
  obtain ⟨kv, hkv, hb⟩ := List.any_eq_true.mp hany2
  have hmem : kv.1 ∈ (groupByTable cols).map Prod.fst := List.mem_map_of_mem Prod.fst hkv
  rcases foldl_addCol_keys cols [] kv.1 hmem with hacc | ⟨c, hc, hck⟩
  · simp at hacc
  · have hbs : kv.1 = "blocks" := by simpa using hb
    exact h c hc (hck.trans hbs)

lemma inspect_eq (db : String) (cols : List Column) :
    inspectDatabase db cols =
      match checkAll db (groupByTable cols) with
      | Except.error e => Except.error e
      | Except.ok _ =>
          if (groupByTable cols).any (fun kv => kv.1 == "blocks") then
            Except.ok (((groupByTable cols).map Prod.fst).filter (fun t => t != "blocks"))
          else
            Except.error ("\x27blocks\x27 table is not defined in database \x27" ++ db ++ "\x27") := by
  simp only [inspectDatabase]
  cases checkAll db (groupByTable cols) <;> rfl

/-- C7 amended: for every listing with no `blocks` table, `inspectDatabase`
fails; but since the existence check runs after the per-table column
validation, the error is `\x27blocks\x27 table is not defined` only when
every table passes column validation — otherwise the first column
validation error is reported instead. -/
theorem missing_blocks_table_fails (db : String) (cols : List Column)
    (hnb : ∀ c ∈ cols, c.table ≠ "blocks") :
    ∃ e, inspectDatabase db cols = Except.error e ∧
      (checkAll db (groupByTable cols) = Except.ok () →
        e = "\x27blocks\x27 table is not defined in database \x27" ++ db ++ "\x27") := by
  have hany := no_blocks_key cols hnb
  rw [inspect_eq]
  cases hca : checkAll db (groupByTable cols) with
  | error e =>
      refine ⟨e, rfl, ?_⟩
      intro hok
      exact Except.noConfusion hok
  | ok u =>
      cases u
      refine ⟨"\x27blocks\x27 table is not defined in database \x27" ++ db ++ "\x27", ?_,
        fun _ => rfl⟩
      rw [if_neg (by simp [hany])]

/-- Witness for `missing_blocks_table_fails` at a concrete listing. -/
theorem missing_blocks_table_fails_witness :
    ∃ e, inspectDatabase "db" [(⟨"t", "x", "UInt32"⟩ : Column)] = Except.error e ∧
      (checkAll "db" (groupByTable [(⟨"t", "x", "UInt32"⟩ : Column)]) = Except.ok () →
        e = "\x27blocks\x27 table is not defined in database \x27" ++ "db" ++ "\x27") :=
  missing_blocks_table_fails "db" [⟨"t", "x", "UInt32"⟩] (by decide)

lemma push_split (map : Block → PerBlockOutput) :
    ∀ (blocks : List Block) (tail pre post : List Ev) (n : Nat) (t : PerBlockOutput),
      (∀ e ∈ tail, pushPayload e = none) →
      (blocks.map (processBlockTrace map)).flatten ++ tail = pre ++ Ev.pushEv n t :: post →
      ∃ pre2, pre = pre2 ++ [Ev.mapEv n, Ev.drainEv] := by
  intro blocks
  induction blocks with
  | nil =>
      intro tail pre post n t hnp heq
      exfalso
      rw [List.map_nil, List.flatten_nil, List.nil_append] at heq
      have hmem : Ev.pushEv n t ∈ tail := by
        rw [heq]
        exact List.mem_append_right pre (List.mem_cons_self _ _)
      have := hnp _ hmem
      simp [pushPayload] at this
  | cons b rest ih =>
      intro tail pre post n t hnp heq
      rw [List.map_cons, List.flatten_cons] at heq
      rcases pre with _ | ⟨x, pre1⟩
      · simp [processBlockTrace] at heq
      · rcases pre1 with _ | ⟨y, pre2⟩
        · simp [processBlockTrace] at heq
        · rcases pre2 with _ | ⟨z, pre3⟩
          · simp only [processBlockTrace, List.cons_append, List.nil_append,
              List.cons.injEq] at heq
            obtain ⟨hx, hy, hz, _⟩ := heq
            obtain ⟨hn, -⟩ := Ev.pushEv.inj hz.symm
            exact ⟨[], by simp [hx, hy, hn]⟩
          · simp only [processBlockTrace, List.cons_append, List.nil_append,
              List.cons.injEq] at heq
            obtain ⟨hx, hy, hz, hrest⟩ := heq
            obtain ⟨pre4, hpre4⟩ := ih tail pre3 post n t hnp hrest
            exact ⟨x :: y :: z :: pre4, by simp [hpre4]⟩

/-- C8: in every batch iteration, each push is immediately preceded by a
completed drain which itself follows that block's mapping; and the pushes
carry exactly the batch's blocks' mapping outputs, once each, in source
order. -/
theorem push_order (map : Block → PerBlockOutput) (batch : DataBatch) :
    ((batchTrace map batch).filterMap pushPayload =
      batch.blocks.map (fun b => (b.header.number, map b))) ∧
    (∀ pre post n t, batchTrace map batch = pre ++ Ev.pushEv n t :: post →
      ∃ pre2, pre = pre2 ++ [Ev.mapEv n, Ev.drainEv]) := by
  constructor
  · unfold batchTrace
    rw [List.filterMap_append, List.filterMap_append, filterMap_push_flatten]
    cases shouldFlush batch <;> simp [pushPayload]
  · intro pre post n t heq
    unfold batchTrace at heq
    rw [List.append_assoc] at heq
    refine push_split map batch.blocks _ pre post n t ?_ heq
    intro e he
    rcases List.mem_append.mp he with hf | hm
    · cases hsf : shouldFlush batch
      · rw [hsf] at hf
        simp at hf
      · rw [hsf] at hf
        simp at hf
        subst hf
        rfl
    · simp at hm
      subst hm
      rfl

/-- Witness for `push_order` at a one-block batch at the head. -/
theorem push_order_witness :
    ∃ pre2, ([Ev.mapEv 7, Ev.drainEv] : List Ev) = pre2 ++ [Ev.mapEv 7, Ev.drainEv] :=
  (push_order (fun _ => ([] : PerBlockOutput)) ⟨[⟨⟨7, "h7", "h6"⟩⟩], some 7⟩).2
    [Ev.mapEv 7, Ev.drainEv] [Ev.flushEv, Ev.metricsEv 1] 7 [] (by rfl)

/-- C1: a buffered `blocks` row is included in a `blocks`-table flush if
and only if its number is at most every item table's durable-up-to-block
watermark — the commit barrier: block `N` is published only when every
item table is durable up to `N`. -/
theorem blocks_flush_commit_barrier (st : WriterState) (r : BlocksRow) :
    r ∈ flushBlocksSelection st ↔
      (r ∈ st.blocksBuffer ∧ ∀ tw ∈ st.durable, r.number ≤ tw.2) := by
  unfold flushBlocksSelection
  rw [List.mem_filter]
  refine and_congr_right fun _ => ?_
  cases hm : minDurable st.durable with
  | none =>
      have hmape : st.durable.map Prod.snd = [] := by
        unfold minDurable at hm
        exact List.min?_eq_none_iff.mp hm
      have hd : st.durable = [] := List.map_eq_nil_iff.mp hmape
      simp [hm, hd]
  | some m =>
      simp only [hm, decide_eq_true_eq]
      unfold minDurable at hm
      obtain ⟨hmem, hmin⟩ := List.min?_eq_some_iff'.mp hm
      constructor
      · intro hle tw htw
        exact le_trans hle (hmin _ (List.mem_map_of_mem Prod.snd htw))
      · intro hall
        obtain ⟨tw, htw, htweq⟩ := List.mem_map.mp hmem
        exact htweq ▸ hall tw htw

/-- Witness for `blocks_flush_commit_barrier`: block 5 is publishable when
the item tables are durable up to 6 and 9. -/
theorem blocks_flush_commit_barrier_witness :
    (⟨5, "h5", "h4"⟩ : BlocksRow) ∈
      flushBlocksSelection
        ⟨[("transfers", 6), ("prices", 9)], [⟨5, "h5", "h4"⟩, ⟨7, "h7", "h6"⟩]⟩ :=
  (blocks_flush_commit_barrier
    ⟨[("transfers", 6), ("prices", 9)], [⟨5, "h5", "h4"⟩, ⟨7, "h7", "h6"⟩]⟩
    ⟨5, "h5", "h4"⟩).mpr (by decide)
